import Mathlib

/-!
Verification of the sharewood agent-registry server.

This file shallowly embeds the core of `src/server/main.go` (the Agent ↔
Consul-service-record codec, the registry handlers, and the
authentication/authorization gate) together with the `Agent` data model of
the `sharewoodapi` package, and proves the spec's testable properties
about that embedding.

The external Consul registry is modelled as a list of service records
(name, tags, string metadata); the registry client calls made by a handler
are recorded in an explicit call log so that "no registry call is made"
claims are expressible.  JWT signature verification and the RFC3339
timestamp rendering of the Go standard library are external collaborators
and are modelled abstractly (see `validateJWT` parameters and
`timeFormatRFC3339` below).
-/

namespace Sharewood

/-- The `Agent` resource, from `sharewoodapi` (src/unnamed/part_000).
`time.Time` is modelled as a `Nat` timestamp whose zero value `0` is Go's
zero `time.Time`; `TTL` (Go `int64`) is an `Int`. -/
structure Agent where
  name : String
  description : String
  release : String := ""
  baseURL : String
  openAPI : String := ""
  howToUse : String
  expiration : Nat := 0
  ttl : Int := 0
  tags : List String := []
  deriving DecidableEq, Repr

/-- A Consul service record as the server uses it: service name, tag list and
flat string-to-string metadata (`api.AgentServiceRegistration`).  The Go map
is modelled as an association list; the encoder only ever produces distinct
keys, so lookup agrees with Go map lookup. -/
structure ServiceRecord where
  service : String
  tags : List String
  meta : List (String × String)
  deriving DecidableEq, Repr

/-- Lookup in the metadata map: Go's `val, ok := m[k]` (comma-ok form). -/
def metaGet? : List (String × String) → String → Option String
  | [], _ => none
  | (k, v) :: rest, key => if k = key then some v else metaGet? rest key

/-- Lookup in the metadata map, Go's `m[k]` form: a missing key yields the
zero value `""`. -/
def metaGetD (m : List (String × String)) (key : String) : String :=
  match metaGet? m key with
  | some v => v
  | none => ""

/-- Model of `time.Time.Format(time.RFC3339)` for a nonzero timestamp: an
injective rendering of the timestamp into a nonempty string.  The Go
rendering is an external library function; the development depends only on
injectivity (round trip with `timeParseRFC3339`), nonemptiness for nonzero
timestamps, and the existence of strings that fail to parse. -/
def timeFormatRFC3339 (t : Nat) : String :=
  String.mk (List.replicate t 'D')

/-- Recognizer for the image of `timeFormatRFC3339` on the character list. -/
def allD : List Char → Bool
  | [] => true
  | c :: rest => if c = 'D' then allD rest else false

/-- Model of `time.Parse(time.RFC3339, s)`: the partial inverse of
`timeFormatRFC3339`; strings outside its image fail to parse (`none`,
standing for Go's non-nil error). -/
def timeParseRFC3339 (s : String) : Option Nat :=
  if s.data = [] then none
  else if allD s.data then some s.data.length else none

/-- `joinComma` is `strings.Join(arr, ",")`. -/
def joinComma : List String → String
  | [] => ""
  | [s] => s
  | s :: rest => s ++ "," ++ joinComma rest

/-- `encodeArrayToString` from src/server/main.go. -/
def encodeArrayToString (arr : List String) : String :=
  if arr = [] then "" else joinComma arr

/-- Comma splitting of a character list, the semantics of
`strings.Split(s, ",")` for nonempty `s`; `cur` is the reversed current
field accumulator. -/
def splitCommaAux : List Char → List Char → List String
  | [], cur => [String.mk cur.reverse]
  | c :: rest, cur =>
      if c = ',' then String.mk cur.reverse :: splitCommaAux rest []
      else splitCommaAux rest (c :: cur)

/-- `decodeStringToArray` from src/server/main.go. -/
def decodeStringToArray (str : String) : List String :=
  if str = "" then [] else splitCommaAux str.data []

/-- The metadata map built by `registerAgent` in src/server/main.go:
mandatory fields always; expiration, release, openapi and tags only when
nonzero/nonempty. -/
def encodeMeta (a : Agent) : List (String × String) :=
  [("Description", a.description), ("howtouse", a.howToUse), ("baseurl", a.baseURL)]
    ++ (if a.expiration ≠ 0 then [("expiration", timeFormatRFC3339 a.expiration)] else [])
    ++ (if a.release ≠ "" then [("release", a.release)] else [])
    ++ (if a.openAPI ≠ "" then [("openapi", a.openAPI)] else [])
    ++ (if a.tags ≠ [] then [("tags", encodeArrayToString a.tags)] else [])

/-- The service registration built by `registerAgent`: name, the reserved
classification tag `"ai-agent"` prepended to the caller's tags
(`append([]string{"ai-agent"}, agent.Tags...)`), and the metadata map. -/
def encodeService (a : Agent) : ServiceRecord :=
  { service := a.name
    tags := "ai-agent" :: a.tags
    meta := encodeMeta a }

/-- The inner membership scan of the tag-merge loops in `listAgents` and
`getAgent` (`for _, existingTag := range agent.Tags { ... }`). -/
def tagFound : List String → String → Bool
  | [], _ => false
  | t :: rest, x => if t = x then true else tagFound rest x

/-- The native-tag merge loop of `listAgents`/`getAgent`: append each
service tag that is not `"ai-agent"` and not already accumulated. -/
def addNativeTags (acc : List String) : List String → List String
  | [] => acc
  | t :: rest =>
      if t = "ai-agent" then addNativeTags acc rest
      else if tagFound acc t then addNativeTags acc rest
      else addNativeTags (acc ++ [t]) rest

/-- The classification-tag scan of `listAgents`/`getAgent`
(`for _, tag := range service.Tags { if tag == "ai-agent" ... }`). -/
def hasAIAgentTag : List String → Bool
  | [] => false
  | t :: rest => if t = "ai-agent" then true else hasAIAgentTag rest

/-- Whether a service record carries the reserved classification tag. -/
def isAIAgent (s : ServiceRecord) : Bool :=
  hasAIAgentTag s.tags

/-- The record-to-Agent decoding performed (identically) inside the loops of
`listAgents` and `getAgent` in src/server/main.go: mandatory fields via
plain map lookup (missing key → `""`), optional fields guarded by
comma-ok + nonemptiness, a malformed or absent expiration left at the zero
timestamp, and tags rebuilt from the `"tags"` metadata value merged with
the non-reserved native tags. -/
def decodeService (s : ServiceRecord) : Agent :=
  { name := s.service
    description := metaGetD s.meta "Description"
    baseURL := metaGetD s.meta "baseurl"
    howToUse := metaGetD s.meta "howtouse"
    release :=
      match metaGet? s.meta "release" with
      | some val => if val ≠ "" then val else ""
      | none => ""
    openAPI :=
      match metaGet? s.meta "openapi" with
      | some val => if val ≠ "" then val else ""
      | none => ""
    expiration :=
      match metaGet? s.meta "expiration" with
      | some val =>
          if val ≠ "" then
            match timeParseRFC3339 val with
            | some t => t
            | none => 0
          else 0
      | none => 0
    ttl := 0
    tags :=
      addNativeTags
        (match metaGet? s.meta "tags" with
         | some val => if val ≠ "" then decodeStringToArray val else []
         | none => [])
        s.tags }

/-- The registry-client calls a handler can make, in the order made
(`consulClient.Agent().…` in src/server/main.go).  `services` is the read
issued by `agentExists` and by the list/get handlers; the other three are
the mutations. -/
inductive GatewayCall where
  | services
  | serviceRegister (r : ServiceRecord) (ttlCheck : Option Int)
  | serviceDeregister (name : String)
  | updateTTL (checkID status : String)
  deriving DecidableEq, Repr

/-- `agentExists` from src/server/main.go: scan all service records for one
whose service name matches, regardless of the classification tag. -/
def agentExists : List ServiceRecord → String → Bool
  | [], _ => false
  | s :: rest, name => if s.service = name then true else agentExists rest name

/-- Outcome of the register handler: 400 missing-fields, 409 conflict, or
201 created echoing the accepted agent. -/
inductive RegisterResult where
  | missingFields
  | conflict
  | created (a : Agent)
  deriving DecidableEq, Repr

/-- Result of a run of the register handler: the HTTP-level response, the
registry state afterwards, and the registry-client calls made. -/
structure RegisterOut where
  response : RegisterResult
  registry : List ServiceRecord
  calls : List GatewayCall
  deriving DecidableEq, Repr

/-- `registerAgent` from src/server/main.go, after JSON binding: validate
the four mandatory fields (no registry call on failure), check existence
(one `Services()` read), abort with conflict if the name is taken, else
encode and register with an optional TTL check. -/
def registerAgent (registry : List ServiceRecord) (a : Agent) : RegisterOut :=
  if a.name = "" ∨ a.description = "" ∨ a.baseURL = "" ∨ a.howToUse = "" then
    { response := .missingFields, registry := registry, calls := [] }
  else if agentExists registry a.name then
    { response := .conflict, registry := registry, calls := [.services] }
  else
    { response := .created a
      registry := registry ++ [encodeService a]
      calls := [.services,
        .serviceRegister (encodeService a) (if a.ttl > 0 then some a.ttl else none)] }

/-- `listAgents` from src/server/main.go: one pass over all service
records, keeping and decoding exactly those carrying the classification
tag. -/
def listAgents : List ServiceRecord → List Agent
  | [] => []
  | s :: rest =>
      if isAIAgent s then decodeService s :: listAgents rest else listAgents rest

/-- The scan inside `getAgent`: the first record whose service name matches
and which carries the classification tag; name-matching records without
the tag are skipped. -/
def findAgentLoop (name : String) : List ServiceRecord → Option Agent
  | [] => none
  | s :: rest =>
      if s.service = name then
        if isAIAgent s then some (decodeService s) else findAgentLoop name rest
      else findAgentLoop name rest

/-- Outcome of the get handler: 404 or 200 with the decoded agent. -/
inductive GetResult where
  | notFound
  | ok (a : Agent)
  deriving DecidableEq, Repr

/-- `getAgent` from src/server/main.go: existence pre-check (ignoring the
classification tag), then the tagged-record scan; a name that exists only
on untagged records falls through to 404. -/
def getAgent (registry : List ServiceRecord) (name : String) : GetResult :=
  if agentExists registry name = false then .notFound
  else
    match findAgentLoop name registry with
    | some a => .ok a
    | none => .notFound

/-- Outcome of the deregister handler. -/
inductive DeregisterResult where
  | notFound
  | ok
  deriving DecidableEq, Repr

/-- Result of a run of the deregister handler. -/
structure DeregisterOut where
  response : DeregisterResult
  registry : List ServiceRecord
  calls : List GatewayCall
  deriving DecidableEq, Repr

/-- `unregisterAgent` from src/server/main.go: existence pre-check, then
`ServiceDeregister(name)` (modelled as dropping the records registered
under that name). -/
def unregisterAgent (registry : List ServiceRecord) (name : String) : DeregisterOut :=
  if agentExists registry name = false then
    { response := .notFound, registry := registry, calls := [.services] }
  else
    { response := .ok
      registry := registry.filter (fun s => s.service ≠ name)
      calls := [.services, .serviceDeregister name] }

/-- Outcome of the health-update handler: 400 invalid status, 404, or
200. -/
inductive HealthResult where
  | invalidStatus
  | notFound
  | ok
  deriving DecidableEq, Repr

/-- Result of a run of the health-update handler (it never alters the set
of service records). -/
structure HealthOut where
  response : HealthResult
  calls : List GatewayCall
  deriving DecidableEq, Repr

/-- `updateAgentHealth` from src/server/main.go: validate the status
against the closed enumeration before anything else (no registry call on
failure), then existence pre-check, then `UpdateTTL("service:"+name)`. -/
def updateAgentHealth (registry : List ServiceRecord) (name status : String) : HealthOut :=
  if status ≠ "passing" ∧ status ≠ "warning" ∧ status ≠ "critical" then
    { response := .invalidStatus, calls := [] }
  else if agentExists registry name = false then
    { response := .notFound, calls := [.services] }
  else
    { response := .ok, calls := [.services, .updateTTL ("service:" ++ name) status] }

/-! ## The authentication / authorization gate -/

/-- `validateAPIKey` from src/server/main.go: the static key→role table
holds exactly the one entry `"test-api-key" → "agent-publisher"`. -/
def validateAPIKey (apiKey : String) : String × Bool :=
  if apiKey = "test-api-key" then ("agent-publisher", true) else ("", false)

/-- The claims carried by a verified JWT (`JWTClaims` in
src/server/main.go). -/
structure JWTClaims where
  userID : String
  role : String
  deriving DecidableEq, Repr

/-- The credential headers of a request; Go's `GetHeader` yields `""` for
an absent header. -/
structure AuthRequest where
  apiKey : String := ""
  authHeader : String := ""
  deriving DecidableEq, Repr

/-- Terminal outcomes of the authentication gate: request context carries a
role, or 401. -/
inductive AuthOutcome where
  | authorized (role : String)
  | rejected
  deriving DecidableEq, Repr

/-- Character-list core of `strings.HasPrefix` (second argument the
candidate head). -/
def listStartsWith : List Char → List Char → Bool
  | _, [] => true
  | [], _ :: _ => false
  | a :: as, b :: bs => if a = b then listStartsWith as bs else false

/-- Structural `strings.HasPrefix s p` (first argument the string, second
the candidate head). -/
def strStartsWith (s p : String) : Bool :=
  listStartsWith s.data p.data

/-- Structural `strings.TrimPrefix s p`. -/
def trimPrefix (s p : String) : String :=
  if strStartsWith s p then String.mk (s.data.drop p.data.length) else s

/-- `authMiddleware` from src/server/main.go, with the external JWT
signature/expiry verification abstracted as `validateJWT` (its result for
each token string): dev-mode bypass first; then a nonempty valid API key;
an invalid key falls through to the bearer check; then a well-formed valid
bearer token; else 401. -/
def authMiddleware (devMode : Bool) (validateJWT : String → Option JWTClaims)
    (req : AuthRequest) : AuthOutcome :=
  if devMode then .authorized "admin"
  else if req.apiKey ≠ "" ∧ (validateAPIKey req.apiKey).2 = true then
    .authorized (validateAPIKey req.apiKey).1
  else if req.authHeader ≠ "" ∧ strStartsWith req.authHeader "Bearer " = true then
    match validateJWT (trimPrefix req.authHeader "Bearer ") with
    | some claims => .authorized claims.role
    | none => .rejected
  else .rejected

/-- Terminal outcomes of the per-operation role gate (`authorize`): let the
handler run, or 403. -/
inductive AuthzOutcome where
  | proceed
  | forbidden
  deriving DecidableEq, Repr

/-- The loop of `authorize(allowedRoles...)` in src/server/main.go: the
request proceeds on the first allowed role it equals, or if it is
`"admin"`; an exhausted list is 403. -/
def authorizeLoop (roleStr : String) : List String → AuthzOutcome
  | [] => .forbidden
  | allowed :: rest =>
      if roleStr = allowed ∨ roleStr = "admin" then .proceed
      else authorizeLoop roleStr rest

/-- The five agent operations routed in `main` (src/server/main.go). -/
inductive Operation where
  | listOp
  | getOp
  | registerOp
  | deregisterOp
  | updateHealthOp
  deriving DecidableEq, Repr

/-- The per-operation allow-list exactly as wired in `main`: the three
mutating routes carry `authorize("admin", "agent-publisher")`; the two
read routes carry no role middleware. -/
def allowedRoles : Operation → Option (List String)
  | .registerOp => some ["admin", "agent-publisher"]
  | .deregisterOp => some ["admin", "agent-publisher"]
  | .updateHealthOp => some ["admin", "agent-publisher"]
  | .listOp => none
  | .getOp => none

/-- Whether an operation mutates registry state. -/
def isMutating : Operation → Bool
  | .registerOp => true
  | .deregisterOp => true
  | .updateHealthOp => true
  | .listOp => false
  | .getOp => false

/-- The role gate an authenticated request with the given role meets on a
route: the route's `authorize` middleware when there is one, else the
handler runs directly. -/
def operationPermitted (op : Operation) (role : String) : AuthzOutcome :=
  match allowedRoles op with
  | some l => authorizeLoop role l
  | none => .proceed

/-! ## Concrete instances used to exercise the verified properties -/

/-- A fully-populated valid agent. -/
def wAgentFull : Agent :=
  { name := "Geography", description := "maps service", release := "v1"
    baseURL := "http://geo.example", openAPI := "openapi.json", howToUse := "query it"
    expiration := 3, ttl := 5, tags := ["maps", "geo"] }

/-- A registry holding one unrelated (non-agent-tagged) service. -/
def wRegNonAgent : List ServiceRecord :=
  [{ service := "web", tags := ["http"], meta := [] }]

/-- A registry already holding a record named `"A"`. -/
def wRegA : List ServiceRecord :=
  [{ service := "A", tags := ["ai-agent"], meta := [("Description", "d0")] }]

/-- A minimal valid agent named `"A"`. -/
def wAgentA : Agent :=
  { name := "A", description := "d", baseURL := "b", howToUse := "h" }

/-- An agent missing its mandatory description. -/
def wAgentNoDesc : Agent :=
  { name := "A", description := "", baseURL := "b", howToUse := "h" }

/-- A valid agent whose caller-supplied tags contain the reserved
classification tag. -/
def wTagAgent : Agent :=
  { name := "A", description := "d", baseURL := "b", howToUse := "h"
    tags := ["ai-agent"] }

/-- A valid agent with an ordinary tag list. -/
def wGoodTagAgent : Agent :=
  { name := "Geography", description := "d", baseURL := "b", howToUse := "h"
    tags := ["maps"] }

/-- A concrete JWT verifier outcome table: one valid token. -/
def wJWT : String → Option JWTClaims :=
  fun t => if t = "tok" then some { userID := "u1", role := "ops" } else none

/-- A tagged service record whose stored expiration does not parse. -/
def wBadExpRecord : ServiceRecord :=
  { service := "A", tags := ["ai-agent"], meta := [("expiration", "not-a-time")] }

/-! ## Helper lemmas -/

theorem tagFound_iff (l : List String) (x : String) : tagFound l x = true ↔ x ∈ l := by
  induction l with
  | nil => simp [tagFound]
  | cons t rest ih =>
      by_cases h : t = x
      · simp [tagFound, h]
      · rw [tagFound, if_neg h]
        simp [ih]
        intro hxt
        exact absurd hxt.symm h

theorem addNativeTags_eq_self (acc : List String) (l : List String)
    (h : ∀ t ∈ l, t = "ai-agent" ∨ t ∈ acc) : addNativeTags acc l = acc := by
  induction l with
  | nil => rfl
  | cons t rest ih =>
      rcases h t (List.mem_cons_self t rest) with ht | ht
      · simp [addNativeTags, ht]
        exact ih fun u hu => h u (List.mem_cons_of_mem _ hu)
      · by_cases hai : t = "ai-agent"
        · simp [addNativeTags, hai]
          exact ih fun u hu => h u (List.mem_cons_of_mem _ hu)
        · have : tagFound acc t = true := (tagFound_iff acc t).mpr ht
          simp [addNativeTags, hai, this]
          exact ih fun u hu => h u (List.mem_cons_of_mem _ hu)

theorem mem_addNativeTags (acc l : List String) (x : String)
    (hx : x ∈ addNativeTags acc l) : x ∈ acc ∨ (x ∈ l ∧ x ≠ "ai-agent") := by
  induction l generalizing acc with
  | nil => exact Or.inl hx
  | cons t rest ih =>
      by_cases hai : t = "ai-agent"
      · simp only [addNativeTags, hai, if_pos rfl] at hx
        rcases ih _ (by simpa [hai] using hx) with h | h
        · exact Or.inl h
        · exact Or.inr ⟨List.mem_cons_of_mem _ h.1, h.2⟩
      · by_cases hf : tagFound acc t = true
        · simp only [addNativeTags, hai, if_neg hai, hf, if_pos rfl] at hx
          rcases ih _ (by simpa using hx) with h | h
          · exact Or.inl h
          · exact Or.inr ⟨List.mem_cons_of_mem _ h.1, h.2⟩
        · simp only [addNativeTags, if_neg hai, hf] at hx
          rcases ih _ (by simpa using hx) with h | h
          · rcases List.mem_append.mp h with h | h
            · exact Or.inl h
            · have hxt : x = t := by simpa using h
              exact Or.inr ⟨hxt ▸ List.mem_cons_self t rest, hxt ▸ hai⟩
          · exact Or.inr ⟨List.mem_cons_of_mem _ h.1, h.2⟩

theorem allD_replicate (n : Nat) : allD (List.replicate n 'D') = true := by
  induction n with
  | zero => rfl
  | succ n ih => simpa [List.replicate_succ, allD] using ih

theorem timeFormat_data (t : Nat) : (timeFormatRFC3339 t).data = List.replicate t 'D' := rfl

theorem timeFormat_ne_empty (t : Nat) (h : t ≠ 0) : timeFormatRFC3339 t ≠ "" := by
  intro he
  have : (timeFormatRFC3339 t).data = [] := by rw [he]
  rw [timeFormat_data] at this
  exact h (by simpa using this)

theorem timeParse_timeFormat (t : Nat) (h : t ≠ 0) :
    timeParseRFC3339 (timeFormatRFC3339 t) = some t := by
  have hne : List.replicate t 'D' ≠ ([] : List Char) := by simpa using h
  simp [timeParseRFC3339, timeFormat_data, hne, allD_replicate]

theorem str_mk_data (s : String) : String.mk s.data = s := rfl

theorem str_ne_empty_of_data (s : String) (h : s.data ≠ []) : s ≠ "" := by
  intro he
  exact h (by rw [he])

theorem splitCommaAux_of_comma_free (cs : List Char) (h : ',' ∉ cs) (cur : List Char) :
    splitCommaAux cs cur = [String.mk (cur.reverse ++ cs)] := by
  induction cs generalizing cur with
  | nil => simp [splitCommaAux]
  | cons c cs ih =>
      have hc : ¬ (c = ',') := fun hcc => h (hcc ▸ List.mem_cons_self c cs)
      rw [splitCommaAux, if_neg hc, ih (fun hm => h (List.mem_cons_of_mem _ hm)) (c :: cur)]
      simp

theorem splitCommaAux_append_comma (cs : List Char) (h : ',' ∉ cs)
    (rest cur : List Char) :
    splitCommaAux (cs ++ ',' :: rest) cur
      = String.mk (cur.reverse ++ cs) :: splitCommaAux rest [] := by
  induction cs generalizing cur with
  | nil => simp [splitCommaAux]
  | cons c cs ih =>
      have hc : ¬ (c = ',') := fun hcc => h (hcc ▸ List.mem_cons_self c cs)
      rw [List.cons_append, splitCommaAux, if_neg hc,
        ih (fun hm => h (List.mem_cons_of_mem _ hm)) (c :: cur)]
      simp

theorem joinComma_data_cons (s : String) (l : List String) (h : l ≠ []) :
    (joinComma (s :: l)).data = s.data ++ ',' :: (joinComma l).data := by
  cases l with
  | nil => exact absurd rfl h
  | cons b bs =>
      show (s ++ "," ++ joinComma (b :: bs)).data = _
      have : (s ++ "," ++ joinComma (b :: bs)).data
          = s.data ++ (",").data ++ (joinComma (b :: bs)).data := rfl
      rw [this]
      simp

theorem decode_encode_array (l : List String) (hne : l ≠ [])
    (h : ∀ t ∈ l, t ≠ "" ∧ ',' ∉ t.data) :
    decodeStringToArray (encodeArrayToString l) = l := by
  induction l with
  | nil => exact absurd rfl hne
  | cons s rest ih =>
      cases rest with
      | nil =>
          have hs := h s (List.mem_cons_self s [])
          have hjoin : encodeArrayToString [s] = s := by
            simp [encodeArrayToString, joinComma]
          rw [hjoin, decodeStringToArray, if_neg hs.1,
            splitCommaAux_of_comma_free s.data hs.2 []]
          simp [str_mk_data]
      | cons b bs =>
          have hdata : (joinComma (s :: b :: bs)).data
              = s.data ++ ',' :: (joinComma (b :: bs)).data :=
            joinComma_data_cons s (b :: bs) (by simp)
          have hne2 : joinComma (s :: b :: bs) ≠ "" := by
            apply str_ne_empty_of_data
            rw [hdata]
            simp
          have hjoin : encodeArrayToString (s :: b :: bs) = joinComma (s :: b :: bs) := by
            simp [encodeArrayToString]
          have hs := h s (List.mem_cons_self s (b :: bs))
          have hrest := ih (by simp) (fun t ht => h t (List.mem_cons_of_mem _ ht))
          have hjoinrest : encodeArrayToString (b :: bs) = joinComma (b :: bs) := by
            simp [encodeArrayToString]
          rw [hjoinrest, decodeStringToArray] at hrest
          by_cases hz : joinComma (b :: bs) = ""
          · rw [if_pos hz] at hrest
            exact absurd hrest.symm (by simp)
          · rw [if_neg hz] at hrest
            rw [hjoin, decodeStringToArray, if_neg hne2, hdata,
              splitCommaAux_append_comma s.data hs.2 _ [], hrest]
            simp [str_mk_data]

theorem agentExists_iff (reg : List ServiceRecord) (n : String) :
    agentExists reg n = true ↔ ∃ r ∈ reg, r.service = n := by
  induction reg with
  | nil => simp [agentExists]
  | cons s rest ih =>
      by_cases h : s.service = n <;> simp [agentExists, h, ih]

theorem findAgentLoop_eq_none (reg : List ServiceRecord) (n : String)
    (h : ∀ r ∈ reg, r.service = n → isAIAgent r = false) :
    findAgentLoop n reg = none := by
  induction reg with
  | nil => rfl
  | cons s rest ih =>
      by_cases hs : s.service = n
      · have := h s (List.mem_cons_self s rest) hs
        rw [findAgentLoop, if_pos hs, if_neg (by simp [this])]
        exact ih fun r hr => h r (List.mem_cons_of_mem _ hr)
      · rw [findAgentLoop, if_neg hs]
        exact ih fun r hr => h r (List.mem_cons_of_mem _ hr)

theorem findAgentLoop_append_last (reg : List ServiceRecord) (r : ServiceRecord)
    (n : String) (h : ∀ x ∈ reg, x.service ≠ n) (hr : r.service = n)
    (hai : isAIAgent r = true) :
    findAgentLoop n (reg ++ [r]) = some (decodeService r) := by
  induction reg with
  | nil =>
      rw [List.nil_append, findAgentLoop, if_pos hr, if_pos hai]
  | cons s rest ih =>
      rw [List.cons_append, findAgentLoop,
        if_neg (h s (List.mem_cons_self s rest))]
      exact ih fun x hx => h x (List.mem_cons_of_mem _ hx)

theorem authorizeLoop_pair (role a b : String) :
    authorizeLoop role [a, b] = .proceed
      ↔ (role = a ∨ role = "admin") ∨ (role = b ∨ role = "admin") := by
  by_cases h1 : role = a ∨ role = "admin"
  · simp [authorizeLoop, h1]
  · by_cases h2 : role = b ∨ role = "admin" <;>
      simp [authorizeLoop, h1, h2]

theorem strStartsWith_ne_empty (s p : String) (hp : p.data ≠ [])
    (h : strStartsWith s p = true) : s ≠ "" := by
  intro he
  rw [he] at h
  unfold strStartsWith at h
  cases hd : p.data with
  | nil => exact hp hd
  | cons c cs =>
      rw [show ("" : String).data = [] from rfl, hd] at h
      simp [listStartsWith] at h

theorem validateAPIKey_fst_ne_admin (k : String) : (validateAPIKey k).1 ≠ "admin" := by
  by_cases h : k = "test-api-key" <;> simp [validateAPIKey, h]

theorem listAgents_eq_filter (reg : List ServiceRecord) :
    listAgents reg = (reg.filter isAIAgent).map decodeService := by
  induction reg with
  | nil => rfl
  | cons s rest ih =>
      by_cases h : isAIAgent s <;> simp [listAgents, List.filter_cons, h, ih]

theorem metaGet?_encodeMeta_description (a : Agent) :
    metaGet? (encodeMeta a) "Description" = some a.description := by
  simp [encodeMeta, metaGet?]

theorem metaGet?_encodeMeta_howtouse (a : Agent) :
    metaGet? (encodeMeta a) "howtouse" = some a.howToUse := by
  simp [encodeMeta, metaGet?]

theorem metaGet?_encodeMeta_baseurl (a : Agent) :
    metaGet? (encodeMeta a) "baseurl" = some a.baseURL := by
  simp [encodeMeta, metaGet?]

theorem metaGet?_encodeMeta_expiration (a : Agent) :
    metaGet? (encodeMeta a) "expiration"
      = if a.expiration = 0 then none else some (timeFormatRFC3339 a.expiration) := by
  by_cases he : a.expiration = 0 <;> by_cases hr : a.release = "" <;>
    by_cases ho : a.openAPI = "" <;> by_cases ht : a.tags = [] <;>
    simp [encodeMeta, metaGet?, he, hr, ho, ht]

theorem metaGet?_encodeMeta_release (a : Agent) :
    metaGet? (encodeMeta a) "release"
      = if a.release = "" then none else some a.release := by
  by_cases he : a.expiration = 0 <;> by_cases hr : a.release = "" <;>
    by_cases ho : a.openAPI = "" <;> by_cases ht : a.tags = [] <;>
    simp [encodeMeta, metaGet?, he, hr, ho, ht]

theorem metaGet?_encodeMeta_openapi (a : Agent) :
    metaGet? (encodeMeta a) "openapi"
      = if a.openAPI = "" then none else some a.openAPI := by
  by_cases he : a.expiration = 0 <;> by_cases hr : a.release = "" <;>
    by_cases ho : a.openAPI = "" <;> by_cases ht : a.tags = [] <;>
    simp [encodeMeta, metaGet?, he, hr, ho, ht]

theorem metaGet?_encodeMeta_tags (a : Agent) :
    metaGet? (encodeMeta a) "tags"
      = if a.tags = [] then none else some (encodeArrayToString a.tags) := by
  by_cases he : a.expiration = 0 <;> by_cases hr : a.release = "" <;>
    by_cases ho : a.openAPI = "" <;> by_cases ht : a.tags = [] <;>
    simp [encodeMeta, metaGet?, he, hr, ho, ht]

theorem decode_encode_description (a : Agent) :
    (decodeService (encodeService a)).description = a.description := by
  simp [decodeService, encodeService, metaGetD, metaGet?_encodeMeta_description]

theorem decode_encode_baseURL (a : Agent) :
    (decodeService (encodeService a)).baseURL = a.baseURL := by
  simp [decodeService, encodeService, metaGetD, metaGet?_encodeMeta_baseurl]

theorem decode_encode_howToUse (a : Agent) :
    (decodeService (encodeService a)).howToUse = a.howToUse := by
  simp [decodeService, encodeService, metaGetD, metaGet?_encodeMeta_howtouse]

theorem decode_encode_release (a : Agent) :
    (decodeService (encodeService a)).release = a.release := by
  by_cases hr : a.release = "" <;>
    simp [decodeService, encodeService, metaGet?_encodeMeta_release, hr]

theorem decode_encode_openAPI (a : Agent) :
    (decodeService (encodeService a)).openAPI = a.openAPI := by
  by_cases ho : a.openAPI = "" <;>
    simp [decodeService, encodeService, metaGet?_encodeMeta_openapi, ho]

theorem decode_encode_expiration (a : Agent) :
    (decodeService (encodeService a)).expiration = a.expiration := by
  by_cases he : a.expiration = 0
  · simp [decodeService, encodeService, metaGet?_encodeMeta_expiration, he]
  · simp [decodeService, encodeService, metaGet?_encodeMeta_expiration, he,
      timeFormat_ne_empty a.expiration he, timeParse_timeFormat a.expiration he]

theorem decode_encode_tags_nil (a : Agent) (h : a.tags = []) :
    (decodeService (encodeService a)).tags = [] := by
  simp [decodeService, encodeService, metaGet?_encodeMeta_tags, h, addNativeTags]

theorem decode_encode_tags (a : Agent)
    (h : ∀ t ∈ a.tags, t ≠ "" ∧ ',' ∉ t.data) :
    (decodeService (encodeService a)).tags = a.tags := by
  by_cases ht : a.tags = []
  · rw [decode_encode_tags_nil a ht, ht]
  · have harr : decodeStringToArray (encodeArrayToString a.tags) = a.tags :=
      decode_encode_array a.tags ht h
    have hbase :
        (match metaGet? (encodeService a).meta "tags" with
         | some val => if val ≠ "" then decodeStringToArray val else []
         | none => []) = a.tags := by
      show (match metaGet? (encodeMeta a) "tags" with
         | some val => if val ≠ "" then decodeStringToArray val else []
         | none => []) = a.tags
      rw [metaGet?_encodeMeta_tags, if_neg ht]
      by_cases hz : encodeArrayToString a.tags = ""
      · rw [hz] at harr
        exact absurd harr.symm (by simpa [decodeStringToArray] using ht)
      · simpa [hz] using harr
    show addNativeTags _ (encodeService a).tags = a.tags
    rw [hbase]
    exact addNativeTags_eq_self a.tags ("ai-agent" :: a.tags)
      (by intro t htm; rcases List.mem_cons.mp htm with h1 | h1
          · exact Or.inl h1
          · exact Or.inr h1)

/-! ## The claimed properties -/

/-- C1: for every valid Agent (non-empty name, description, baseURL,
howToUse), decoding the service record produced by encoding it reproduces
all mandatory fields; optional fields are normalized to their documented
defaults (absent tags decode to the empty sequence, absent expiration to
the zero timestamp), and the field-to-metadata-key mapping is reversible:
release, openAPI and expiration always round-trip, and tags round-trip
whenever they are representable in the comma-joined metadata value
(nonempty, comma-free strings). -/
theorem codec_round_trip (a : Agent)
    (hn : a.name ≠ "") (hd : a.description ≠ "")
    (hb : a.baseURL ≠ "") (hh : a.howToUse ≠ "") :
    (decodeService (encodeService a)).name = a.name
    ∧ (decodeService (encodeService a)).description = a.description
    ∧ (decodeService (encodeService a)).baseURL = a.baseURL
    ∧ (decodeService (encodeService a)).howToUse = a.howToUse
    ∧ (decodeService (encodeService a)).release = a.release
    ∧ (decodeService (encodeService a)).openAPI = a.openAPI
    ∧ (decodeService (encodeService a)).expiration = a.expiration
    ∧ (a.tags = [] → (decodeService (encodeService a)).tags = [])
    ∧ (a.expiration = 0 → (decodeService (encodeService a)).expiration = 0)
    ∧ ((∀ t ∈ a.tags, t ≠ "" ∧ ',' ∉ t.data) →
        (decodeService (encodeService a)).tags = a.tags) :=
  ⟨rfl, decode_encode_description a, decode_encode_baseURL a, decode_encode_howToUse a,
    decode_encode_release a, decode_encode_openAPI a, decode_encode_expiration a,
    decode_encode_tags_nil a,
    fun h => by rw [decode_encode_expiration a, h],
    decode_encode_tags a⟩

/-- Closed instance of C1 at a fully-populated concrete agent. -/
theorem codec_round_trip_witness :
    (decodeService (encodeService wAgentFull)).name = "Geography"
    ∧ (decodeService (encodeService wAgentFull)).description = "maps service"
    ∧ (decodeService (encodeService wAgentFull)).expiration = 3
    ∧ (decodeService (encodeService wAgentFull)).tags = ["maps", "geo"] := by
  have h := codec_round_trip wAgentFull (by decide) (by decide) (by decide) (by decide)
  exact ⟨h.1, h.2.1, h.2.2.2.2.2.2.1,
    h.2.2.2.2.2.2.2.2.2 (by decide)⟩

/-- C2: list returns exactly the classification-tagged records (decoded),
and get yields NotFound for any name none of whose records carries the
classification tag — even when a service record with that name exists. -/
theorem reads_never_surface_foreign_services (reg : List ServiceRecord) (n : String)
    (h : ∀ r ∈ reg, r.service = n → isAIAgent r = false) :
    listAgents reg = (reg.filter isAIAgent).map decodeService
    ∧ getAgent reg n = .notFound := by
  refine ⟨listAgents_eq_filter reg, ?_⟩
  unfold getAgent
  by_cases he : agentExists reg n = false
  · rw [if_pos he]
  · rw [if_neg he, findAgentLoop_eq_none reg n h]

/-- Closed instance of C2: a registry holding only an untagged service
yields an empty listing and NotFound on get, even though the name
exists. -/
theorem reads_never_surface_foreign_services_witness :
    listAgents wRegNonAgent = (wRegNonAgent.filter isAIAgent).map decodeService
    ∧ getAgent wRegNonAgent "web" = .notFound :=
  reads_never_surface_foreign_services wRegNonAgent "web" (by decide)

/-- C3: a register request for a name that already exists (with valid
mandatory fields) returns Conflict after only the existence read, with the
registry left unchanged — no mutation is attempted. -/
theorem duplicate_register_conflict (reg : List ServiceRecord) (a : Agent)
    (hn : a.name ≠ "") (hd : a.description ≠ "")
    (hb : a.baseURL ≠ "") (hh : a.howToUse ≠ "")
    (hex : agentExists reg a.name = true) :
    (registerAgent reg a).response = .conflict
    ∧ (registerAgent reg a).registry = reg
    ∧ (registerAgent reg a).calls = [.services] := by
  have hval : ¬ (a.name = "" ∨ a.description = "" ∨ a.baseURL = "" ∨ a.howToUse = "") := by
    push_neg
    exact ⟨hn, hd, hb, hh⟩
  unfold registerAgent
  rw [if_neg hval, if_pos hex]
  exact ⟨rfl, rfl, rfl⟩

/-- Closed instance of C3: re-registering the name `"A"` conflicts and
leaves the original record in place. -/
theorem duplicate_register_conflict_witness :
    (registerAgent wRegA wAgentA).response = .conflict
    ∧ (registerAgent wRegA wAgentA).registry = wRegA
    ∧ (registerAgent wRegA wAgentA).calls = [.services] :=
  duplicate_register_conflict wRegA wAgentA (by decide) (by decide) (by decide)
    (by decide) (by decide)

/-- C6: a register request with any mandatory field absent fails validation
with no registry interaction at all — no existence check and no
registration, so the registry is unchanged. -/
theorem invalid_register_makes_no_registry_call (reg : List ServiceRecord) (a : Agent)
    (h : a.name = "" ∨ a.description = "" ∨ a.baseURL = "" ∨ a.howToUse = "") :
    (registerAgent reg a).response = .missingFields
    ∧ (registerAgent reg a).registry = reg
    ∧ (registerAgent reg a).calls = [] := by
  unfold registerAgent
  rw [if_pos h]
  exact ⟨rfl, rfl, rfl⟩

/-- Closed instance of C6 at an agent with an empty description. -/
theorem invalid_register_makes_no_registry_call_witness :
    (registerAgent wRegA wAgentNoDesc).response = .missingFields
    ∧ (registerAgent wRegA wAgentNoDesc).registry = wRegA
    ∧ (registerAgent wRegA wAgentNoDesc).calls = [] :=
  invalid_register_makes_no_registry_call wRegA wAgentNoDesc (by decide)

/-- C7: a health update with a status outside {passing, warning, critical}
is rejected as a validation error before the existence check and before
any registry call, for every registry state. -/
theorem invalid_health_status_rejected_first (reg : List ServiceRecord)
    (n status : String)
    (h : status ≠ "passing" ∧ status ≠ "warning" ∧ status ≠ "critical") :
    (updateAgentHealth reg n status).response = .invalidStatus
    ∧ (updateAgentHealth reg n status).calls = [] := by
  unfold updateAgentHealth
  rw [if_pos h]
  exact ⟨rfl, rfl⟩

/-- Closed instance of C7: `status=unknown` on an existing name. -/
theorem invalid_health_status_rejected_first_witness :
    (updateAgentHealth wRegA "A" "unknown").response = .invalidStatus
    ∧ (updateAgentHealth wRegA "A" "unknown").calls = [] :=
  invalid_health_status_rejected_first wRegA "A" "unknown" (by decide)

/-- C9: decoding a service record is total, and both an absent expiration
key and an expiration value that fails to parse decode to the zero
timestamp — never an error. -/
theorem decode_expiration_total (s : ServiceRecord) :
    (metaGet? s.meta "expiration" = none → (decodeService s).expiration = 0)
    ∧ (∀ v, metaGet? s.meta "expiration" = some v → timeParseRFC3339 v = none →
        (decodeService s).expiration = 0) := by
  constructor
  · intro h
    show (match metaGet? s.meta "expiration" with
      | some val =>
          if val ≠ "" then
            match timeParseRFC3339 val with
            | some t => t
            | none => 0
          else 0
      | none => 0) = 0
    rw [h]
  · intro v h hp
    show (match metaGet? s.meta "expiration" with
      | some val =>
          if val ≠ "" then
            match timeParseRFC3339 val with
            | some t => t
            | none => 0
          else 0
      | none => 0) = 0
    rw [h]
    by_cases hv : v = "" <;> simp [hv, hp]

/-- Closed instance of C9 at a record with an unparsable stored
expiration. -/
theorem decode_expiration_total_witness :
    (decodeService wBadExpRecord).expiration = 0 :=
  (decode_expiration_total wBadExpRecord).2 "not-a-time" (by decide) (by decide)

/-- C4: on every mutating route (register, deregister, health-update) an
authenticated request with resolved role `r` is permitted iff `r` is
`"admin"` or `r` is in the route's allow-list, and otherwise meets the
insufficient-permissions rejection; the read routes (list, get) carry no
role gate, so any authenticated role proceeds. -/
theorem role_gate_allowlist (role : String) (op : Operation) :
    (isMutating op = true →
      (operationPermitted op role = .proceed ↔
        role = "admin" ∨ role ∈ (allowedRoles op).getD []))
    ∧ (isMutating op = false → operationPermitted op role = .proceed) := by
  have hmut : ∀ hop : allowedRoles op = some ["admin", "agent-publisher"],
      operationPermitted op role = .proceed ↔
        role = "admin" ∨ role ∈ (allowedRoles op).getD [] := by
    intro hop
    rw [operationPermitted, hop]
    show authorizeLoop role ["admin", "agent-publisher"] = .proceed ↔
        role = "admin" ∨ role ∈ ["admin", "agent-publisher"]
    rw [authorizeLoop_pair]
    constructor
    · intro h
      simp only [List.mem_cons, List.mem_singleton]
      tauto
    · intro h
      simp only [List.mem_cons, List.mem_singleton] at h
      tauto
  cases op with
  | listOp => exact ⟨fun h => by exact absurd h (by decide), fun _ => rfl⟩
  | getOp => exact ⟨fun h => by exact absurd h (by decide), fun _ => rfl⟩
  | registerOp => exact ⟨fun _ => hmut rfl, fun h => by exact absurd h (by decide)⟩
  | deregisterOp => exact ⟨fun _ => hmut rfl, fun h => by exact absurd h (by decide)⟩
  | updateHealthOp => exact ⟨fun _ => hmut rfl, fun h => by exact absurd h (by decide)⟩

/-- Closed instance of C4: the publisher role may register, and a
read-only role still passes the list route, which has no role gate. -/
theorem role_gate_allowlist_witness :
    operationPermitted .registerOp "agent-publisher" = .proceed
    ∧ operationPermitted .listOp "reader" = .proceed :=
  ⟨((role_gate_allowlist "agent-publisher" .registerOp).1 (by decide)).mpr
      (Or.inr (by decide)),
    (role_gate_allowlist "reader" .listOp).2 (by decide)⟩

/-- C5: the authentication gate evaluates in order: the dev-mode bypass
yields the admin role; else a present valid API key yields the key's role;
a present but invalid API key is not rejected but falls through to the
bearer-token check; a well-formed bearer token the verifier accepts yields
the role from its claims; and if neither credential validated, the request
is rejected with the authentication-required error. -/
theorem auth_gate_evaluation_order (vjwt : String → Option JWTClaims)
    (req : AuthRequest) :
    authMiddleware true vjwt req = .authorized "admin"
    ∧ (req.apiKey ≠ "" → (validateAPIKey req.apiKey).2 = true →
        authMiddleware false vjwt req = .authorized (validateAPIKey req.apiKey).1)
    ∧ (∀ claims, (validateAPIKey req.apiKey).2 = false →
        strStartsWith req.authHeader "Bearer " = true →
        vjwt (trimPrefix req.authHeader "Bearer ") = some claims →
        authMiddleware false vjwt req = .authorized claims.role)
    ∧ ((validateAPIKey req.apiKey).2 = false →
        (strStartsWith req.authHeader "Bearer " = false ∨
          vjwt (trimPrefix req.authHeader "Bearer ") = none) →
        authMiddleware false vjwt req = .rejected) := by
  refine ⟨rfl, ?_, ?_, ?_⟩
  · intro h1 h2
    rw [authMiddleware, if_neg (by simp), if_pos ⟨h1, h2⟩]
  · intro claims h1 h2 h3
    have hne : req.authHeader ≠ "" :=
      strStartsWith_ne_empty req.authHeader "Bearer " (by decide) h2
    rw [authMiddleware, if_neg (by simp),
      if_neg (fun hc => by rw [hc.2] at h1; cases h1),
      if_pos ⟨hne, h2⟩, h3]
  · intro h1 h2
    rw [authMiddleware, if_neg (by simp),
      if_neg (fun hc => by rw [hc.2] at h1; cases h1)]
    by_cases h3 : req.authHeader ≠ "" ∧ strStartsWith req.authHeader "Bearer " = true
    · rcases h2 with h2 | h2
      · rw [h3.2] at h2
        cases h2
      · rw [if_pos h3, h2]
    · rw [if_neg h3]

/-- Closed instance of C5: an absent API key falls through to a valid
bearer token, which authenticates with the role from its claims. -/
theorem auth_gate_evaluation_order_witness :
    authMiddleware false wJWT { apiKey := "", authHeader := "Bearer tok" }
      = .authorized "ops" :=
  (auth_gate_evaluation_order wJWT { apiKey := "", authHeader := "Bearer tok" }).2.2.1
    { userID := "u1", role := "ops" } (by decide) (by decide) (by decide)

/-- C10: the static API-key table accepts exactly the key
`"test-api-key"`, which resolves to the role `"agent-publisher"`; no API
key ever resolves to `"admin"`, so the admin role is reachable only
through the dev-mode bypass or a bearer token whose role claim is
`"admin"`. -/
theorem api_key_table_single_entry (k : String) (devMode : Bool)
    (vjwt : String → Option JWTClaims) (req : AuthRequest) :
    ((validateAPIKey k).2 = true ↔ k = "test-api-key")
    ∧ validateAPIKey "test-api-key" = ("agent-publisher", true)
    ∧ (validateAPIKey k).1 ≠ "admin"
    ∧ (authMiddleware devMode vjwt req = .authorized "admin" →
        devMode = true ∨
          ∃ claims, vjwt (trimPrefix req.authHeader "Bearer ") = some claims ∧
            claims.role = "admin") := by
  refine ⟨?_, rfl, validateAPIKey_fst_ne_admin k, ?_⟩
  · by_cases hk : k = "test-api-key" <;> simp [validateAPIKey, hk]
  · intro hmain
    cases devMode with
    | true => exact Or.inl rfl
    | false =>
        right
        rw [authMiddleware, if_neg (by simp)] at hmain
        by_cases h2 : req.apiKey ≠ "" ∧ (validateAPIKey req.apiKey).2 = true
        · rw [if_pos h2] at hmain
          have : (validateAPIKey req.apiKey).1 = "admin" := by
            simpa using hmain
          exact absurd this (validateAPIKey_fst_ne_admin req.apiKey)
        · rw [if_neg h2] at hmain
          by_cases h3 : req.authHeader ≠ "" ∧ strStartsWith req.authHeader "Bearer " = true
          · rw [if_pos h3] at hmain
            cases hv : vjwt (trimPrefix req.authHeader "Bearer ") with
            | none =>
                rw [hv] at hmain
                cases hmain
            | some claims =>
                rw [hv] at hmain
                exact ⟨claims, rfl, by simpa using hmain⟩
          · rw [if_neg h3] at hmain
            cases hmain

/-- Closed instance of C10: the single table entry validates and resolves
to the publisher role. -/
theorem api_key_table_single_entry_witness :
    (validateAPIKey "test-api-key").2 = true :=
  (api_key_table_single_entry "test-api-key" false wJWT
    { apiKey := "", authHeader := "" }).1.mpr rfl

/-- C8, counterexample: the claim that every agent read back by get has
tags excluding the reserved classification tag is false.  Registering an
agent whose caller-supplied tags are `["ai-agent"]` stores that value in
the comma-joined `"tags"` metadata key; on read the reserved tag is
stripped only from the record's native tag list, not from the decoded
metadata value, so the fetched agent's tags still contain
`"ai-agent"`. -/
theorem reserved_tag_excluded_cex :
    getAgent (registerAgent [] wTagAgent).registry "A"
      = .ok { name := "A", description := "d", baseURL := "b", howToUse := "h"
              tags := ["ai-agent"] }
    ∧ "ai-agent" ∈ (decodeService (encodeService wTagAgent)).tags := by
  decide

/-- C8, amended: the reconstructed tags field is the comma-split `"tags"`
metadata value followed by those native record tags that are neither the
reserved classification tag nor already present — the reserved tag is
excluded, and duplicates are removed, only on the native-tag side of the
merge.  Consequently an agent registered with representable tags
(nonempty, comma-free) not containing `"ai-agent"`, then fetched by name,
has exactly its registered tags, which exclude `"ai-agent"`. -/
theorem reserved_tag_excluded_amended (reg : List ServiceRecord) (a : Agent)
    (hn : a.name ≠ "") (hd : a.description ≠ "")
    (hb : a.baseURL ≠ "") (hh : a.howToUse ≠ "")
    (hex : agentExists reg a.name = false)
    (hno : "ai-agent" ∉ a.tags)
    (hc : ∀ t ∈ a.tags, t ≠ "" ∧ ',' ∉ t.data) :
    getAgent (registerAgent reg a).registry a.name
      = .ok (decodeService (encodeService a))
    ∧ (decodeService (encodeService a)).tags = a.tags
    ∧ "ai-agent" ∉ (decodeService (encodeService a)).tags := by
  have htags := decode_encode_tags a hc
  refine ⟨?_, htags, by rw [htags]; exact hno⟩
  have hval : ¬ (a.name = "" ∨ a.description = "" ∨ a.baseURL = "" ∨ a.howToUse = "") := by
    push_neg
    exact ⟨hn, hd, hb, hh⟩
  have hreg : (registerAgent reg a).registry = reg ++ [encodeService a] := by
    unfold registerAgent
    rw [if_neg hval, if_neg (by simp [hex])]
  rw [hreg]
  have hnone : ∀ r ∈ reg, r.service ≠ a.name := by
    intro r hr heq
    have : agentExists reg a.name = true :=
      (agentExists_iff reg a.name).mpr ⟨r, hr, heq⟩
    rw [hex] at this
    cases this
  have hex2 : agentExists (reg ++ [encodeService a]) a.name = true :=
    (agentExists_iff _ _).mpr ⟨encodeService a, by simp, rfl⟩
  unfold getAgent
  rw [if_neg (by simp [hex2]),
    findAgentLoop_append_last reg (encodeService a) a.name hnone rfl
      (by simp [isAIAgent, encodeService, hasAIAgentTag])]

/-- Closed instance of the amended C8: a concrete agent with an ordinary
tag registered into an empty registry and fetched back. -/
theorem reserved_tag_excluded_amended_witness :
    getAgent (registerAgent [] wGoodTagAgent).registry "Geography"
      = .ok (decodeService (encodeService wGoodTagAgent))
    ∧ (decodeService (encodeService wGoodTagAgent)).tags = ["maps"]
    ∧ "ai-agent" ∉ (decodeService (encodeService wGoodTagAgent)).tags :=
  reserved_tag_excluded_amended [] wGoodTagAgent (by decide) (by decide) (by decide)
    (by decide) (by decide) (by decide) (by decide)

end Sharewood
